import Mathlib

/-!
Verification of the kanban backend's service and storage layers.

Rust strings are modelled as lists of characters (`Str`); Rust's
`str::len` is the UTF-8 byte length, modelled by `byteLen`.  The Unicode
character classification used by Rust's `char::is_alphabetic`,
`char::is_lowercase` and `char::is_uppercase` is kept abstract as a
`CharClass` oracle; `latinClass` instantiates it with the ASCII tables,
on which it agrees with the Rust functions.
-/

namespace Kanban

abbrev Str := List Char

/-- Rust `str::len`: the number of UTF-8 bytes of the string. -/
def byteLen (s : Str) : Nat := (s.map Char.utf8Size).sum

/-- Oracle for the Unicode character classification used by Rust's
`char::is_alphabetic`, `char::is_lowercase`, `char::is_uppercase`. -/
structure CharClass where
  isAlphabetic : Char → Bool
  isLowercase : Char → Bool
  isUppercase : Char → Bool

/-- ASCII instantiation of the classification oracle; it agrees with the
Rust Unicode tables on all ASCII characters. -/
def latinClass : CharClass :=
  { isAlphabetic := Char.isAlpha
    isLowercase := Char.isLower
    isUppercase := Char.isUpper }

/-! ### app/auth.rs: validators -/

/-- From `validate_username` in `app/auth.rs`:
`c.is_alphabetic() || c.is_ascii_digit() || c == '_'`. -/
def is_allowed_username_character (cc : CharClass) (c : Char) : Bool :=
  cc.isAlphabetic c || c.isDigit || c == '_'

/-- Embeds `validate_username` from `app/auth.rs`. -/
def validate_username (cc : CharClass) (username : Str) : Bool :=
  let sufficient_length := byteLen username ≥ 6
  let all_chars_allowed := username.all (is_allowed_username_character cc)
  sufficient_length && all_chars_allowed

/-- Embeds `SPECIAL_CHARS` from `validate_password` in `app/auth.rs`. -/
def SPECIAL_CHARS : List Char := ['$', '@', '!']

/-- From `validate_password` in `app/auth.rs`:
`c.is_alphabetic() || c.is_ascii_digit() || SPECIAL_CHARS.contains(&c)`. -/
def is_allowed_password_character (cc : CharClass) (c : Char) : Bool :=
  cc.isAlphabetic c || c.isDigit || SPECIAL_CHARS.contains c

/-- Embeds `validate_password` from `app/auth.rs`. -/
def validate_password (cc : CharClass) (password : Str) : Bool :=
  let sufficient_length := byteLen password ≥ 8
  let all_chars_allowed := password.all (is_allowed_password_character cc)
  let has_lowercase_letter := password.any cc.isLowercase
  let has_uppercase_letter := password.any cc.isUppercase
  let has_digit := password.any Char.isDigit
  let has_special_symbol := password.any (SPECIAL_CHARS.contains ·)
  sufficient_length && all_chars_allowed && has_lowercase_letter &&
    has_uppercase_letter && has_digit && has_special_symbol

/-! ### model/sessions.rs: SessionToken -/

/-- Embeds `SessionToken` of `model/sessions.rs`: a wrapper around the raw
token string. -/
structure SessionToken where
  raw : Str
deriving DecidableEq

/-- Embeds `SessionToken::is_valid_token` from `model/sessions.rs`: the only
check performed is that the length is 32. -/
def SessionToken.is_valid_token (token : Str) : Bool :=
  byteLen token == 32

/-- Embeds `SessionToken::from_str` from `model/sessions.rs`. -/
def SessionToken.from_str (token : Str) : Option SessionToken :=
  if ! SessionToken.is_valid_token token then none
  else some ⟨token⟩

/-- Hex digit as decoded by the `hex` crate (used only to state the
spec's claimed token shape, never as part of the embedding). -/
def isHexDigitChar (c : Char) : Bool :=
  c.isDigit || ('a' ≤ c && c ≤ 'f') || ('A' ≤ c && c ≤ 'F')

/-! ### Association lists standing for Rust `HashMap`

Lookup returns the value of the first entry with the given key; insert
replaces the value in place when the key is present and appends
otherwise.  Both agree observationally with `HashMap::get` /
`HashMap::insert` on every key. -/

def alistLookup [DecidableEq α] (m : List (α × β)) (k : α) : Option β :=
  match m with
  | [] => none
  | (k0, v0) :: rest => if k0 = k then some v0 else alistLookup rest k

def alistInsert [DecidableEq α] (m : List (α × β)) (k : α) (v : β) : List (α × β) :=
  match m with
  | [] => [(k, v)]
  | (k0, v0) :: rest =>
    if k0 = k then (k, v) :: rest else (k0, v0) :: alistInsert rest k v

/-! ### storage/inmemory/users.rs -/

/-- Embeds `UserStorage` from `storage/inmemory/users.rs`. -/
structure UserStorage where
  username : Str
  password : Str
deriving DecidableEq

/-- Embeds `MutableUsersStorage` from `storage/inmemory/users.rs`.  `UserId` is
an `i64` (`UniqueId`), modelled as `Int`. -/
structure MutableUsersStorage where
  next_id : Int
  users_by_id : List (Int × UserStorage)
  users_by_name : List (Str × Int)
deriving DecidableEq

/-- Embeds `InMemoryUsers::new` from `storage/inmemory/users.rs`. -/
def InMemoryUsers.new : MutableUsersStorage :=
  { next_id := 1, users_by_id := [], users_by_name := [] }

/-- Embeds `InMemoryUsers::add_user` from `storage/inmemory/users.rs`. -/
def InMemoryUsers.add_user (st : MutableUsersStorage) (user_id : Int)
    (username password : Str) : MutableUsersStorage :=
  { next_id := user_id + 1
    users_by_id := alistInsert st.users_by_id user_id ⟨username, password⟩
    users_by_name := alistInsert st.users_by_name username user_id }

/-- Embeds `InMemoryUsers::does_user_exist_by_username` from
`storage/inmemory/users.rs`. -/
def InMemoryUsers.does_user_exist_by_username (st : MutableUsersStorage)
    (username : Str) : Bool :=
  (alistLookup st.users_by_name username).isSome

/-- Embeds `InMemoryUsers::get_username` from `storage/inmemory/users.rs`. -/
def InMemoryUsers.get_username (st : MutableUsersStorage) (user_id : Int) :
    Option Str :=
  (alistLookup st.users_by_id user_id).map (·.username)

/-- Embeds `InMemoryUsers::create_user` from `storage/inmemory/users.rs`: takes
the next id and inserts into both maps, with no check that the username
is already taken. -/
def InMemoryUsers.create_user (st : MutableUsersStorage)
    (username password : Str) : Int × MutableUsersStorage :=
  let user_id := st.next_id
  (user_id,
    { next_id := user_id + 1
      users_by_id := alistInsert st.users_by_id user_id ⟨username, password⟩
      users_by_name := alistInsert st.users_by_name username user_id })

/-- Result of `InMemoryUsers::find_user_with_password`; `panicked`
stands for the `unwrap()` on a name-indexed id missing from
`users_by_id`. -/
inductive FindUserResult where
  | found (user_id : Int) (password : Str)
  | notFound
  | panicked
deriving DecidableEq

/-- Embeds `InMemoryUsers::find_user_with_password` from
`storage/inmemory/users.rs`. -/
def InMemoryUsers.find_user_with_password (st : MutableUsersStorage)
    (username : Str) : FindUserResult :=
  match alistLookup st.users_by_name username with
  | none => .notFound
  | some user_id =>
    match alistLookup st.users_by_id user_id with
    | none => .panicked
    | some user => .found user_id user.password

/-! ### storage/inmemory/sessions.rs -/

/-- The state of `InMemorySessions`: the `HashMap<String, UserId>`
guarded by its mutex. -/
abbrev SessionsMap := List (Str × Int)

/-- Embeds `InMemorySessions::get_authorized_user_id` from
`storage/inmemory/sessions.rs`. -/
def InMemorySessions.get_authorized_user_id (s : SessionsMap)
    (token : SessionToken) : Option Int :=
  alistLookup s token.raw

/-- Embeds `InMemorySessions::create_user_session` from
`storage/inmemory/sessions.rs`.  The randomly generated token is an
explicit argument `r`; the call fails when that token is already a key
of the map. -/
def InMemorySessions.create_user_session (s : SessionsMap) (user_id : Int)
    (r : SessionToken) : Except Str SessionToken × SessionsMap :=
  if (alistLookup s r.raw).isSome then
    (.error ("could not create a unique session token".toList), s)
  else
    (.ok r, alistInsert s r.raw user_id)

/-! ### model/tasks.rs: descriptions -/

/-- Embeds `TaskDescription` from `model/tasks.rs`. -/
structure TaskDescription where
  task_id : Str
  label : Str
  description : Str
  category_id : Str
deriving DecidableEq

/-- Embeds `TaskCategoryDescription` from `model/tasks.rs`. -/
structure TaskCategoryDescription where
  category_id : Str
  label : Str
deriving DecidableEq

/-! ### storage/inmemory/tasks.rs -/

/-- Embeds `TaskCategoryStorage` from `storage/inmemory/tasks.rs`. -/
structure TaskCategoryStorage where
  user_id : Int
  category_desc : TaskCategoryDescription
deriving DecidableEq

/-- Embeds `TaskStorage` from `storage/inmemory/tasks.rs`. -/
structure TaskStorage where
  user_id : Int
  task_desc : TaskDescription
deriving DecidableEq

/-- The state of `InMemoryTasks`: both mutex-guarded vectors. -/
structure InMemoryTasksState where
  categories : List TaskCategoryStorage
  tasks : List TaskStorage
deriving DecidableEq

/-- Embeds `InMemoryTasks::fetch_tasks` from `storage/inmemory/tasks.rs`. -/
def InMemoryTasks.fetch_tasks (st : InMemoryTasksState) (user_id : Int) :
    List TaskDescription :=
  (st.tasks.filter (fun s => s.user_id == user_id)).map (·.task_desc)

/-- Embeds `InMemoryTasks::delete_task` from `storage/inmemory/tasks.rs`:
`tasks.retain_mut(|t| t.user_id == user_id && t.task_desc.task_id == task_id)`
followed by `Ok(())`.  `Vec::retain_mut` keeps exactly the elements on
which the predicate is true. -/
def InMemoryTasks.delete_task (st : InMemoryTasksState) (user_id : Int)
    (task_id : Str) : Except Str Unit × InMemoryTasksState :=
  (.ok (),
    { st with
      tasks := st.tasks.filter
        (fun t => t.user_id == user_id && t.task_desc.task_id == task_id) })

/-- Embeds `InMemoryTasks::fetch_categories` from `storage/inmemory/tasks.rs`. -/
def InMemoryTasks.fetch_categories (st : InMemoryTasksState) (user_id : Int) :
    List TaskCategoryDescription :=
  (st.categories.filter (fun c => c.user_id == user_id)).map (·.category_desc)

/-- The descriptions built at the top of both `add_categories`
implementations: one freshly generated id per label, in label order.
The id generator `gen` stands for `generate_random_task_id`, giving the
id produced for the n-th label. -/
def makeCategoryDescriptions (gen : Nat → Str) (labels : List Str) :
    List TaskCategoryDescription :=
  labels.enum.map (fun p => ⟨gen p.1, p.2⟩)

/-- Embeds `InMemoryTasks::add_categories` from `storage/inmemory/tasks.rs`:
generate all descriptions, fail (before inserting anything) if any
generated id collides with an existing category of this user, otherwise
push them all. -/
def InMemoryTasks.add_categories (st : InMemoryTasksState) (user_id : Int)
    (labels : List Str) (gen : Nat → Str) :
    Except Str (List TaskCategoryDescription) × InMemoryTasksState :=
  let descriptions := makeCategoryDescriptions gen labels
  if descriptions.any (fun d =>
      st.categories.any (fun x =>
        x.user_id == user_id && x.category_desc.category_id == d.category_id)) then
    (.error ("could not generate unique task category id".toList), st)
  else
    (.ok descriptions,
      { st with
        categories :=
          st.categories ++ descriptions.map (fun d => ⟨user_id, d⟩) })

/-! ### storage/db/tasks.rs

The relational state is the list of rows of the `tasks` and
`task_categories` tables.  SQL statements act on all rows matching their
WHERE clause. -/

/-- A row of the `tasks` table:
`tasks(user_id, task_id, category_id, label, description)`. -/
structure TaskRow where
  user_id : Int
  task_id : Str
  category_id : Str
  label : Str
  description : Str
deriving DecidableEq

/-- A row of the `task_categories` table:
`task_categories(user_id, category_id, label)`. -/
structure CategoryRow where
  user_id : Int
  category_id : Str
  label : Str
deriving DecidableEq

/-- Embeds `DbError::RowNotFound` (the only variant these operations raise
themselves). -/
inductive DbError where
  | rowNotFound
deriving DecidableEq

/-- Embeds `DbTasks::delete_task` from `storage/db/tasks.rs`:
`DELETE FROM tasks WHERE user_id=$1 AND task_id=$2`, then an error when
`rows_affected() == 0`. -/
def DbTasks.delete_task (rows : List TaskRow) (user_id : Int)
    (task_id : Str) : Except DbError Unit × List TaskRow :=
  let remaining := rows.filter
    (fun r => !(r.user_id == user_id && r.task_id == task_id))
  let rows_affected := rows.length - remaining.length
  if rows_affected == 0 then (.error .rowNotFound, remaining)
  else (.ok (), remaining)

/-- Embeds `DbTasks::fetch_categories` from `storage/db/tasks.rs`. -/
def DbTasks.fetch_categories (rows : List CategoryRow) (user_id : Int) :
    List TaskCategoryDescription :=
  (rows.filter (fun r => r.user_id == user_id)).map
    (fun r => ⟨r.category_id, r.label⟩)

/-- Sequential execution of the INSERT statements of
`DbTasks::add_categories` inside the transaction.  `fails` is the
storage engine's oracle saying whether inserting a given row into the
given table state violates a constraint; on the first failure the whole
transaction is rolled back (`none`). -/
def dbInsertAll (fails : CategoryRow → List CategoryRow → Bool) :
    List CategoryRow → List CategoryRow → Option (List CategoryRow)
  | cur, [] => some cur
  | cur, r :: rs =>
    if fails r cur then none else dbInsertAll fails (cur ++ [r]) rs

/-- Embeds `DbTasks::add_categories` from `storage/db/tasks.rs`: generate the
descriptions, insert them one by one inside a transaction, commit on
success; any insert failure aborts the transaction and leaves the table
unchanged. -/
def DbTasks.add_categories (fails : CategoryRow → List CategoryRow → Bool)
    (rows : List CategoryRow) (user_id : Int) (labels : List Str)
    (gen : Nat → Str) :
    Except Str (List TaskCategoryDescription) × List CategoryRow :=
  let descriptions := makeCategoryDescriptions gen labels
  match dbInsertAll fails rows
      (descriptions.map (fun d => ⟨user_id, d.category_id, d.label⟩)) with
  | none => (.error ("db error".toList), rows)
  | some rows2 => (.ok descriptions, rows2)

/-! ### app/auth.rs: AuthService -/

/-- Embeds `LoginError` from `app/auth.rs`. -/
inductive LoginError where
  | userNotFound
  | incorrectPassword
deriving DecidableEq

/-- Embeds `CreateUserError` from `app/auth.rs`. -/
inductive CreateUserError where
  | invalidUsername
  | invalidPassword
  | userAlreadyExists
deriving DecidableEq

/-- Observable outcome of `AuthService::login_user`: the domain result
(`ok`/`err`), an `anyhow` error propagated by `?` (`internalErr`), or a
process abort (`panicked`, from the repository's `unwrap`). -/
inductive LoginOutcome where
  | ok (user_id : Int) (token : SessionToken)
  | err (e : LoginError)
  | internalErr (msg : Str)
  | panicked
deriving DecidableEq

/-- Observable outcome of `AuthService::create_user`; `panicked` stands
for the `expect` inside the `on_created_user` callback. -/
inductive CreateUserOutcome where
  | ok (user_id : Int) (token : SessionToken)
  | err (e : CreateUserError)
  | internalErr (msg : Str)
  | panicked (msg : Str)
deriving DecidableEq

/-- The state visible to `AuthService` when backed by the in-memory
repositories. -/
structure AuthState where
  users : MutableUsersStorage
  sessions : SessionsMap
  tasks : InMemoryTasksState
deriving DecidableEq

/-- Embeds `DEFAULT_CATEGORIES` from the `on_created_user` callback in
`app/auth.rs`. -/
def DEFAULT_CATEGORIES : List Str :=
  ["ToDo".toList, "In progress".toList, "Completed".toList]

/-- Embeds `AuthService::login_user` from `app/auth.rs`, with the in-memory
repositories plugged in.  The randomly generated session token is the
explicit argument `r`. -/
def AuthService.login_user (st : AuthState) (username password : Str)
    (r : SessionToken) : LoginOutcome × AuthState :=
  match InMemoryUsers.find_user_with_password st.users username with
  | .notFound => (.err .userNotFound, st)
  | .panicked => (.panicked, st)
  | .found user_id actual_password =>
    if actual_password ≠ password then (.err .incorrectPassword, st)
    else
      match InMemorySessions.create_user_session st.sessions user_id r with
      | (.error msg, s2) => (.internalErr msg, { st with sessions := s2 })
      | (.ok token, s2) => (.ok user_id token, { st with sessions := s2 })

/-- Embeds `AuthService::create_user` from `app/auth.rs`, with the in-memory
repositories plugged in.  `r` is the session token generated on the
success path and `gen` the id generator used by the `on_created_user`
callback's `add_categories` call. -/
def AuthService.create_user (cc : CharClass) (st : AuthState)
    (username password : Str) (r : SessionToken) (gen : Nat → Str) :
    CreateUserOutcome × AuthState :=
  if ! validate_username cc username then (.err .invalidUsername, st)
  else if ! validate_password cc password then (.err .invalidPassword, st)
  else if InMemoryUsers.does_user_exist_by_username st.users username then
    (.err .userAlreadyExists, st)
  else
    let (user_id, users2) := InMemoryUsers.create_user st.users username password
    match InMemorySessions.create_user_session st.sessions user_id r with
    | (.error msg, s2) =>
      (.internalErr msg, { st with users := users2, sessions := s2 })
    | (.ok token, s2) =>
      match InMemoryTasks.add_categories st.tasks user_id DEFAULT_CATEGORIES gen with
      | (.error msg, t2) =>
        (.panicked msg, { users := users2, sessions := s2, tasks := t2 })
      | (.ok _, t2) =>
        (.ok user_id token, { users := users2, sessions := s2, tasks := t2 })

/-- Embeds `AuthService::get_authorized_user_id` from `app/auth.rs`: a direct
passthrough to the sessions repository. -/
def AuthService.get_authorized_user_id (st : AuthState)
    (token : SessionToken) : Option Int :=
  InMemorySessions.get_authorized_user_id st.sessions token

/-! ### api/controllers/tasks.rs: board assembly -/

/-- Embeds `Task` from `api/controllers/tasks.rs`. -/
structure BoardTask where
  task_id : Str
  label : Str
  description : Str
deriving DecidableEq

/-- Embeds `TaskCategory` from `api/controllers/tasks.rs`. -/
structure BoardCategory where
  category_id : Str
  label : Str
  ordered_tasks : List BoardTask
deriving DecidableEq

/-- Embeds `TasksBoard` from `api/controllers/tasks.rs`. -/
structure TasksBoard where
  ordered_categories : List BoardCategory
deriving DecidableEq

/-- Embeds `HashMap::from_iter` over key/value pairs: repeated insertion, later
pairs overwriting earlier ones with the same key. -/
def hashFromIter [DecidableEq α] (ps : List (α × β)) : List (α × β) :=
  ps.foldl (fun m p => alistInsert m p.1 p.2) []

/-- In-place update of the element at an index
(`ordered_categories[idx]` mutation in the task loop). -/
def modifyIdx (f : α → α) : List α → Nat → List α
  | [], _ => []
  | a :: as, 0 => f a :: as
  | a :: as, n + 1 => a :: modifyIdx f as n

/-- The `for task in tasks` loop of `make_tasks_board`: push each task
onto the category at its index, or fail when its category id has no
index. -/
def boardInsertTasks (indices : List (Str × Nat)) :
    List BoardCategory → List TaskDescription → Except Str (List BoardCategory)
  | acc, [] => .ok acc
  | acc, task :: rest =>
    match alistLookup indices task.category_id with
    | none =>
      .error ("task ".toList ++ task.task_id ++
        " is assigned to category ".toList ++ task.category_id ++
        ", but the category is missing".toList)
    | some idx =>
      boardInsertTasks indices
        (modifyIdx
          (fun c =>
            { c with
              ordered_tasks :=
                c.ordered_tasks ++ [⟨task.task_id, task.label, task.description⟩] })
          acc idx)
        rest

/-- Embeds `make_tasks_board` from `api/controllers/tasks.rs`. -/
def make_tasks_board (tasks : List TaskDescription)
    (categories : List TaskCategoryDescription) : Except Str TasksBoard :=
  let ordered_categories : List BoardCategory :=
    categories.map (fun ct => ⟨ct.category_id, ct.label, []⟩)
  let indices : List (Str × Nat) :=
    hashFromIter (ordered_categories.enum.map (fun p => (p.2.category_id, p.1)))
  (boardInsertTasks indices ordered_categories tasks).map TasksBoard.mk

/-- Projection of a stored `TaskDescription` to the transport `Task`
shape, as done inside the task loop of `make_tasks_board`. -/
def toBoardTask (t : TaskDescription) : BoardTask :=
  ⟨t.task_id, t.label, t.description⟩

/-- The board described by the spec, written from the spec's words for
comparison with `make_tasks_board`: one board category per element of
the category list, in the same order, each carrying exactly the tasks
whose `category_id` equals that category's id, in task order. -/
def specTasksBoard (tasks : List TaskDescription)
    (categories : List TaskCategoryDescription) : TasksBoard :=
  ⟨categories.map (fun c =>
    ⟨c.category_id, c.label,
      (tasks.filter (fun t => t.category_id == c.category_id)).map toBoardTask⟩)⟩

/-- Index of the first occurrence of `k` (the list's length when `k` is
absent); proof helper for the board-index map. -/
def idxOf [DecidableEq α] (k : α) : List α → Nat
  | [] => 0
  | a :: as => if a = k then 0 else idxOf k as + 1

/-- Key/index pairs fed to `HashMap::from_iter` in `make_tasks_board`,
parameterized by the starting index; proof helper. -/
def catIndexPairs (n : Nat) (ids : List Str) : List (Str × Nat) :=
  (ids.enumFrom n).map (fun p => (p.2, p.1))

/-- Well-formedness of the in-memory users store: every id indexed by
`users_by_name` is present in `users_by_id` (the unwritten invariant
behind the `unwrap` in `find_user_with_password`). -/
def UsersWF (st : MutableUsersStorage) : Prop :=
  ∀ uname uid, alistLookup st.users_by_name uname = some uid →
    (alistLookup st.users_by_id uid).isSome = true

end Kanban

namespace Kanban

/-- C7: validate_password accepts exactly the passwords of length at least 8
(UTF-8 bytes, Rust `str::len`) whose characters are all letters, ASCII digits
or one of $, @, !, and which contain at least one lowercase letter, one
uppercase letter, one ASCII digit and one special character; the spec's
example vectors evaluate as claimed. -/
theorem C7_validate_password_iff :
    (∀ (cc : CharClass) (p : Str),
      validate_password cc p = true ↔
        (byteLen p ≥ 8 ∧
         (∀ c ∈ p, cc.isAlphabetic c = true ∨ c.isDigit = true ∨ c ∈ SPECIAL_CHARS) ∧
         (∃ c ∈ p, cc.isLowercase c = true) ∧
         (∃ c ∈ p, cc.isUppercase c = true) ∧
         (∃ c ∈ p, c.isDigit = true) ∧
         (∃ c ∈ p, c ∈ SPECIAL_CHARS))) ∧
    validate_password latinClass "Ab12345@".toList = true ∧
    validate_password latinClass "ABab1@".toList = false ∧
    validate_password latinClass "abcdefh1@".toList = false ∧
    validate_password latinClass "ABCabc123".toList = false ∧
    validate_password latinClass "Ab12345@_".toList = false ∧
    validate_password latinClass ("Ab12345@".toList ++ ['\n']) = false := by
  refine ⟨fun cc p => ?_, by decide, by decide, by decide, by decide, by decide, by decide⟩
  simp only [validate_password, is_allowed_password_character, Bool.and_eq_true,
    List.all_eq_true, List.any_eq_true, Bool.or_eq_true, decide_eq_true_eq,
    List.elem_iff, List.contains, and_assoc, or_assoc]

/-- C8: validate_username accepts exactly the strings of length at least 6
(UTF-8 bytes) whose characters are all letters, ASCII digits or underscore,
with no upper length bound; the spec's example rejections and acceptances
evaluate as claimed. -/
theorem C8_validate_username_iff :
    (∀ (cc : CharClass) (u : Str),
      validate_username cc u = true ↔
        (byteLen u ≥ 6 ∧
         (∀ c ∈ u, cc.isAlphabetic c = true ∨ c.isDigit = true ∨ c = '_'))) ∧
    validate_username latinClass "".toList = false ∧
    validate_username latinClass "ABab5".toList = false ∧
    validate_username latinClass "user@123".toList = false ∧
    validate_username latinClass "us%123".toList = false ∧
    validate_username latinClass "user_123".toList = true := by
  refine ⟨fun cc u => ?_, by decide, by decide, by decide, by decide, by decide⟩
  simp only [validate_username, is_allowed_username_character, Bool.and_eq_true,
    List.all_eq_true, Bool.or_eq_true, decide_eq_true_eq, beq_iff_eq, and_assoc, or_assoc]

/-- C3 counterexample: the 32-character all-z string contains no hex digit at
all, yet SessionToken.from_str accepts it, refuting the claim that
construction fails on 32-character strings containing a non-hex character. -/
theorem C3_from_str_accepts_non_hex :
    SessionToken.from_str (List.replicate 32 'z') = some ⟨List.replicate 32 'z'⟩ ∧
    (List.replicate 32 'z').all isHexDigitChar = false ∧
    (List.replicate 32 'z').length = 32 := by
  exact ⟨rfl, by decide, by decide⟩

/-- C3 amended: SessionToken.from_str succeeds exactly on the strings whose
UTF-8 byte length is 32; the characters are never inspected, so hex-ness is
not required. -/
theorem C3_from_str_iff :
    ∀ s : Str, (SessionToken.from_str s).isSome = true ↔ byteLen s = 32 := by
  intro s
  simp only [SessionToken.from_str, SessionToken.is_valid_token, beq_iff_eq]
  split <;> simp_all

/-- C1: evaluation at the failing input: the in-memory delete_task keeps
exactly the task matching (userId, taskId) and removes every other stored
task, and when no task matches it empties the store instead of leaving it
unchanged - the retain_mut predicate of the source is not negated. -/
theorem C1_delete_task_keeps_match_drops_rest :
    InMemoryTasks.delete_task
        ⟨[], [⟨1, ⟨"t1".toList, "l".toList, "d".toList, "c1".toList⟩⟩,
              ⟨1, ⟨"t2".toList, "l".toList, "d".toList, "c1".toList⟩⟩]⟩
        1 "t1".toList
      = (.ok (), ⟨[], [⟨1, ⟨"t1".toList, "l".toList, "d".toList, "c1".toList⟩⟩]⟩) ∧
    InMemoryTasks.delete_task
        ⟨[], [⟨1, ⟨"t1".toList, "l".toList, "d".toList, "c1".toList⟩⟩]⟩ 1 "t9".toList
      = (.ok (), ⟨[], []⟩) := by
  exact ⟨rfl, rfl⟩

/-- C2 counterexample: with no stored task matching, the in-memory
delete_task returns success instead of failing with a NotFound error. -/
theorem C2_inmemory_delete_succeeds_on_absent :
    (InMemoryTasks.delete_task ⟨[], []⟩ 1 "t1".toList).1 = Except.ok () := rfl

/-- C2 amended: the DB backend's delete_task fails with RowNotFound exactly
when no row matches (userId, taskId), while the in-memory backend's
delete_task always returns success, so the success/failure classification of
the two backends differs. -/
theorem C2_delete_task_classification :
    ∀ (rows : List TaskRow) (st : InMemoryTasksState) (user_id : Int) (task_id : Str),
      ((DbTasks.delete_task rows user_id task_id).1 = .error .rowNotFound ↔
        ¬ ∃ r ∈ rows, r.user_id = user_id ∧ r.task_id = task_id) ∧
      (InMemoryTasks.delete_task st user_id task_id).1 = .ok () := by
  intro rows st uid tid
  refine ⟨?_, rfl⟩
  have hle := List.length_filter_le (fun r => !(r.user_id == uid && r.task_id == tid)) rows
  simp only [DbTasks.delete_task, beq_iff_eq]
  split
  · next h =>
    simp only [true_iff, reduceCtorEq, iff_true]
    have h2 : (rows.filter (fun r => !(r.user_id == uid && r.task_id == tid))).length
        = rows.length := le_antisymm hle (Nat.le_of_sub_eq_zero (by simpa using h))
    have h3 := List.filter_length_eq_length.mp h2
    rintro ⟨r, hr, h4, h5⟩
    have := h3 r hr
    simp only [Bool.not_eq_true', Bool.and_eq_false_iff, beq_eq_false_iff_ne] at this
    rcases this with h6 | h6 <;> exact h6 (by simp [h4, h5])
  · next h =>
    simp only [reduceCtorEq, false_iff, not_not]
    have h2 : (rows.filter (fun r => !(r.user_id == uid && r.task_id == tid))).length
        ≠ rows.length := by
      intro heq
      exact h (by rw [heq]; exact Nat.sub_self _)
    have h3 := mt List.filter_length_eq_length.mpr h2
    push_neg at h3
    obtain ⟨r, hr, h4⟩ := h3
    refine ⟨r, hr, ?_⟩
    simp at h4
    exact h4

/-- C4: starting from the empty store, two sequential create_user calls with
the same username both commit, leaving two stored user records carrying the
same username - the in-memory repository enforces no unique-username
invariant. -/
theorem C4_create_user_commits_duplicate_username :
    ((InMemoryUsers.create_user
        (InMemoryUsers.create_user InMemoryUsers.new "user_one".toList "Pw111".toList).2
        "user_one".toList "Pw222".toList).2.users_by_id.map
      (fun p => p.2.username))
      = ["user_one".toList, "user_one".toList] ∧
    ¬ ((InMemoryUsers.create_user
        (InMemoryUsers.create_user InMemoryUsers.new "user_one".toList "Pw111".toList).2
        "user_one".toList "Pw222".toList).2.users_by_id.map
      (fun p => p.2.username)).Nodup := by
  refine ⟨rfl, by decide⟩

end Kanban

namespace Kanban

theorem makeCategoryDescriptions_label (gen : Nat → Str) (labels : List Str) :
    (makeCategoryDescriptions gen labels).map (fun d => d.label) = labels := by
  simp only [makeCategoryDescriptions, List.map_map]
  rw [show ((fun d => TaskCategoryDescription.label d) ∘
      (fun p : Nat × Str => (⟨gen p.1, p.2⟩ : TaskCategoryDescription)))
      = Prod.snd from rfl]
  exact List.enum_map_snd labels

theorem makeCategoryDescriptions_id (gen : Nat → Str) (labels : List Str) :
    (makeCategoryDescriptions gen labels).map (fun d => d.category_id)
      = (List.range labels.length).map gen := by
  simp only [makeCategoryDescriptions, List.map_map]
  rw [show ((fun d => TaskCategoryDescription.category_id d) ∘
      (fun p : Nat × Str => (⟨gen p.1, p.2⟩ : TaskCategoryDescription)))
      = (gen ∘ Prod.fst) from rfl]
  rw [← List.map_map, List.enum_map_fst]

theorem dbInsertAll_some (fails : CategoryRow → List CategoryRow → Bool) :
    ∀ (rs cur out : List CategoryRow),
      dbInsertAll fails cur rs = some out → out = cur ++ rs := by
  intro rs
  induction rs with
  | nil =>
    intro cur out h
    simp only [dbInsertAll, Option.some.injEq] at h
    simp [h]
  | cons r rs ih =>
    intro cur out h
    simp only [dbInsertAll] at h
    split at h
    · exact absurd h (by simp)
    · have := ih (cur ++ [r]) out h
      simp [this]

/-- C6: add_categories is all-or-nothing in both backends: on success it
returns one category per label, in label order, each with its freshly
generated id, and all of them are visible via fetch_categories afterwards
(tasks untouched); on any error the stored categories are exactly what they
were before. -/
theorem C6_add_categories_atomic :
    ∀ (st : InMemoryTasksState) (user_id : Int) (labels : List Str) (gen : Nat → Str)
      (fails : CategoryRow → List CategoryRow → Bool) (rows : List CategoryRow),
      (∀ ds st2, InMemoryTasks.add_categories st user_id labels gen = (.ok ds, st2) →
        ds.map (fun d => d.label) = labels ∧
        ds.map (fun d => d.category_id) = (List.range labels.length).map gen ∧
        InMemoryTasks.fetch_categories st2 user_id
          = InMemoryTasks.fetch_categories st user_id ++ ds ∧
        st2.tasks = st.tasks) ∧
      (∀ e st2, InMemoryTasks.add_categories st user_id labels gen = (.error e, st2) →
        st2 = st) ∧
      (∀ ds rows2, DbTasks.add_categories fails rows user_id labels gen = (.ok ds, rows2) →
        ds.map (fun d => d.label) = labels ∧
        ds.map (fun d => d.category_id) = (List.range labels.length).map gen ∧
        DbTasks.fetch_categories rows2 user_id
          = DbTasks.fetch_categories rows user_id ++ ds) ∧
      (∀ e rows2, DbTasks.add_categories fails rows user_id labels gen = (.error e, rows2) →
        rows2 = rows) := by
  intro st user_id labels gen fails rows
  refine ⟨?_, ?_, ?_, ?_⟩
  · intro ds st2 h
    simp only [InMemoryTasks.add_categories] at h
    split at h
    · exact absurd h (by simp)
    · simp only [Prod.mk.injEq, Except.ok.injEq] at h
      obtain ⟨hds, hst⟩ := h
      subst hds
      refine ⟨makeCategoryDescriptions_label gen labels,
        makeCategoryDescriptions_id gen labels, ?_, ?_⟩
      · rw [← hst]
        simp only [InMemoryTasks.fetch_categories, List.filter_append, List.map_append]
        congr 1
        rw [List.filter_eq_self.mpr, List.map_map]
        · rw [show ((fun c => TaskCategoryStorage.category_desc c) ∘
            (fun d => (⟨user_id, d⟩ : TaskCategoryStorage))) = id from rfl]
          exact List.map_id _
        · intro c hc
          simp only [List.mem_map] at hc
          obtain ⟨d, _, rfl⟩ := hc
          simp
      · rw [← hst]
  · intro e st2 h
    simp only [InMemoryTasks.add_categories] at h
    split at h
    · simp only [Prod.mk.injEq] at h
      exact h.2.symm
    · exact absurd h (by simp)
  · intro ds rows2 h
    simp only [DbTasks.add_categories] at h
    rcases hins : dbInsertAll fails rows
        ((makeCategoryDescriptions gen labels).map
          (fun d => ⟨user_id, d.category_id, d.label⟩)) with _ | out
    · rw [hins] at h
      exact absurd h (by simp)
    · rw [hins] at h
      simp only [Prod.mk.injEq, Except.ok.injEq] at h
      obtain ⟨hds, hrows⟩ := h
      subst hds
      refine ⟨makeCategoryDescriptions_label gen labels,
        makeCategoryDescriptions_id gen labels, ?_⟩
      have hout := dbInsertAll_some fails _ rows out hins
      rw [← hrows, hout]
      simp only [DbTasks.fetch_categories, List.filter_append, List.map_append]
      congr 1
      rw [List.filter_eq_self.mpr, List.map_map]
      · rw [show ((fun r => (⟨r.category_id, r.label⟩ : TaskCategoryDescription)) ∘
          (fun d => (⟨user_id, d.category_id, d.label⟩ : CategoryRow))) = id from rfl]
        exact List.map_id _
      · intro c hc
        simp only [List.mem_map] at hc
        obtain ⟨d, _, rfl⟩ := hc
        simp
  · intro e rows2 h
    simp only [DbTasks.add_categories] at h
    rcases hins : dbInsertAll fails rows
        ((makeCategoryDescriptions gen labels).map
          (fun d => ⟨user_id, d.category_id, d.label⟩)) with _ | out
    · rw [hins] at h
      simp only [Prod.mk.injEq] at h
      exact h.2.symm
    · rw [hins] at h
      exact absurd h (by simp)

end Kanban

namespace Kanban

/-- C6 witness: the in-memory backend run on the three default labels from
an empty store. -/
theorem C6_add_categories_atomic_witness :
    ([(⟨['a'], "ToDo".toList⟩ : TaskCategoryDescription),
      ⟨['a', 'a'], "In progress".toList⟩,
      ⟨['a', 'a', 'a'], "Completed".toList⟩].map (fun d => d.label)
        = DEFAULT_CATEGORIES) ∧
    ([(⟨['a'], "ToDo".toList⟩ : TaskCategoryDescription),
      ⟨['a', 'a'], "In progress".toList⟩,
      ⟨['a', 'a', 'a'], "Completed".toList⟩].map (fun d => d.category_id)
        = (List.range DEFAULT_CATEGORIES.length).map
            (fun n => List.replicate (n + 1) 'a')) ∧
    InMemoryTasks.fetch_categories
        ⟨[⟨1, ⟨['a'], "ToDo".toList⟩⟩,
          ⟨1, ⟨['a', 'a'], "In progress".toList⟩⟩,
          ⟨1, ⟨['a', 'a', 'a'], "Completed".toList⟩⟩], []⟩ 1
      = InMemoryTasks.fetch_categories ⟨[], []⟩ 1 ++
        [⟨['a'], "ToDo".toList⟩,
         ⟨['a', 'a'], "In progress".toList⟩,
         ⟨['a', 'a', 'a'], "Completed".toList⟩] ∧
    (⟨[⟨1, ⟨['a'], "ToDo".toList⟩⟩,
       ⟨1, ⟨['a', 'a'], "In progress".toList⟩⟩,
       ⟨1, ⟨['a', 'a', 'a'], "Completed".toList⟩⟩], []⟩ : InMemoryTasksState).tasks
      = (⟨[], []⟩ : InMemoryTasksState).tasks :=
  (C6_add_categories_atomic ⟨[], []⟩ 1 DEFAULT_CATEGORIES
      (fun n => List.replicate (n + 1) 'a') (fun _ _ => false) []).1
    [⟨['a'], "ToDo".toList⟩,
     ⟨['a', 'a'], "In progress".toList⟩,
     ⟨['a', 'a', 'a'], "Completed".toList⟩]
    ⟨[⟨1, ⟨['a'], "ToDo".toList⟩⟩,
      ⟨1, ⟨['a', 'a'], "In progress".toList⟩⟩,
      ⟨1, ⟨['a', 'a', 'a'], "Completed".toList⟩⟩], []⟩
    rfl

end Kanban

namespace Kanban

/-- C9: AuthService.create_user checks username format, then password
format, then existence, in that order: an invalid username yields
InvalidUsername regardless of the password or of existence, a valid username
with an invalid password yields InvalidPassword regardless of existence,
UserAlreadyExists is returned exactly when both are valid and the username
exists, and every error case leaves the whole state unchanged (no user is
created). -/
theorem C9_create_user_check_order :
    ∀ (cc : CharClass) (st : AuthState) (u p : Str) (r : SessionToken) (gen : Nat → Str),
      (validate_username cc u = false →
        AuthService.create_user cc st u p r gen = (.err .invalidUsername, st)) ∧
      (validate_username cc u = true → validate_password cc p = false →
        AuthService.create_user cc st u p r gen = (.err .invalidPassword, st)) ∧
      (validate_username cc u = true → validate_password cc p = true →
        InMemoryUsers.does_user_exist_by_username st.users u = true →
        AuthService.create_user cc st u p r gen = (.err .userAlreadyExists, st)) ∧
      (∀ e st2, AuthService.create_user cc st u p r gen = (.err e, st2) → st2 = st) ∧
      (∀ st2, AuthService.create_user cc st u p r gen = (.err .userAlreadyExists, st2) →
        validate_username cc u = true ∧ validate_password cc p = true ∧
        InMemoryUsers.does_user_exist_by_username st.users u = true) := by
  intro cc st u p r gen
  refine ⟨?_, ?_, ?_, ?_, ?_⟩
  · intro h1
    simp [AuthService.create_user, h1]
  · intro h1 h2
    simp [AuthService.create_user, h1, h2]
  · intro h1 h2 h3
    simp [AuthService.create_user, h1, h2, h3]
  · intro e st2 h
    simp only [AuthService.create_user] at h
    repeat' split at h
    all_goals simp_all
  · intro st2 h
    simp only [AuthService.create_user] at h
    repeat' split at h
    all_goals simp_all

end Kanban

namespace Kanban

/-- C9 witness: creating a user with the too-short username user1 fails with
InvalidUsername and leaves the empty state unchanged. -/
theorem C9_create_user_check_order_witness :
    AuthService.create_user latinClass ⟨InMemoryUsers.new, [], ⟨[], []⟩⟩
        "user1".toList "ABc123456@".toList ⟨"t".toList⟩ (fun _ => [])
      = (.err .invalidUsername, ⟨InMemoryUsers.new, [], ⟨[], []⟩⟩) :=
  (C9_create_user_check_order latinClass ⟨InMemoryUsers.new, [], ⟨[], []⟩⟩
      "user1".toList "ABc123456@".toList ⟨"t".toList⟩ (fun _ => [])).1 (by decide)

theorem alistLookup_insert [DecidableEq α] (m : List (α × β)) (k k2 : α) (v : β) :
    alistLookup (alistInsert m k v) k2 = if k = k2 then some v else alistLookup m k2 := by
  induction m with
  | nil => simp [alistInsert, alistLookup]
  | cons p rest ih =>
    obtain ⟨k0, v0⟩ := p
    by_cases h0 : k0 = k <;> by_cases h2 : k0 = k2 <;> by_cases h3 : k = k2 <;>
      simp_all [alistInsert, alistLookup]

/-- C10: login returns UserNotFound exactly when the username is absent; a
stored password differing from the supplied one yields IncorrectPassword
with no state change; when the passwords match and the freshly generated
token is not already in use, login succeeds with the user's id and a token
that resolves back to that id via getAuthorizedUserId, and every previously
issued session still resolves to its user. -/
theorem C10_login_user :
    ∀ (st : AuthState) (u p : Str) (r : SessionToken),
      UsersWF st.users →
      (((AuthService.login_user st u p r).1 = .err .userNotFound ↔
        InMemoryUsers.does_user_exist_by_username st.users u = false) ∧
      (∀ uid actual,
        InMemoryUsers.find_user_with_password st.users u = .found uid actual →
        actual ≠ p →
        AuthService.login_user st u p r = (.err .incorrectPassword, st)) ∧
      (∀ uid,
        InMemoryUsers.find_user_with_password st.users u = .found uid p →
        InMemorySessions.get_authorized_user_id st.sessions r = none →
        (AuthService.login_user st u p r).1 = .ok uid r ∧
        AuthService.get_authorized_user_id (AuthService.login_user st u p r).2 r
          = some uid ∧
        (∀ (t : SessionToken) (uid0 : Int),
          InMemorySessions.get_authorized_user_id st.sessions t = some uid0 →
          InMemorySessions.get_authorized_user_id
            (AuthService.login_user st u p r).2.sessions t = some uid0))) := by
  intro st u p r hwf
  cases hn : alistLookup st.users.users_by_name u with
  | none =>
    have hfind : InMemoryUsers.find_user_with_password st.users u = .notFound := by
      simp [InMemoryUsers.find_user_with_password, hn]
    refine ⟨?_, ?_, ?_⟩
    · simp [AuthService.login_user, hfind, InMemoryUsers.does_user_exist_by_username, hn]
    · intro uid actual hf
      rw [hfind] at hf
      exact absurd hf (by simp)
    · intro uid hf
      rw [hfind] at hf
      exact absurd hf (by simp)
  | some uid =>
    have hid := hwf u uid hn
    obtain ⟨urec, hu⟩ := Option.isSome_iff_exists.mp hid
    have hfind : InMemoryUsers.find_user_with_password st.users u
        = .found uid urec.password := by
      simp [InMemoryUsers.find_user_with_password, hn, hu]
    refine ⟨?_, ?_, ?_⟩
    · constructor
      · intro hout
        exfalso
        simp only [AuthService.login_user, hfind] at hout
        split at hout
        · simp at hout
        · rcases hs : InMemorySessions.create_user_session st.sessions uid r with ⟨e | tok, s2⟩
          · rw [hs] at hout
            simp at hout
          · rw [hs] at hout
            simp at hout
      · intro hex
        exfalso
        simp [InMemoryUsers.does_user_exist_by_username, hn] at hex
    · intro uid2 actual hf hne
      rw [hfind] at hf
      obtain ⟨h1, h2⟩ : uid2 = uid ∧ actual = urec.password := by
        cases hf
        exact ⟨rfl, rfl⟩
      subst h1
      subst h2
      simp [AuthService.login_user, hfind, hne]
    · intro uid2 hf hsess
      rw [hfind] at hf
      obtain ⟨h1, h2⟩ : uid2 = uid ∧ p = urec.password := by
        cases hf
        exact ⟨rfl, rfl⟩
      subst h1
      simp only [InMemorySessions.get_authorized_user_id] at hsess
      have hcreate : InMemorySessions.create_user_session st.sessions uid2 r
          = (.ok r, alistInsert st.sessions r.raw uid2) := by
        simp [InMemorySessions.create_user_session, hsess]
      have hlogin : AuthService.login_user st u p r
          = (.ok uid2 r, { st with sessions := alistInsert st.sessions r.raw uid2 }) := by
        simp [AuthService.login_user, hfind, ← h2, hcreate]
      refine ⟨by rw [hlogin], ?_, ?_⟩
      · rw [hlogin]
        simp [AuthService.get_authorized_user_id, InMemorySessions.get_authorized_user_id,
          alistLookup_insert]
      · intro t uid0 ht
        rw [hlogin]
        simp only [InMemorySessions.get_authorized_user_id] at ht ⊢
        rw [alistLookup_insert]
        split
        · next heq =>
          rw [heq] at hsess
          rw [hsess] at ht
          exact absurd ht (by simp)
        · exact ht

end Kanban

namespace Kanban

/-- C10 witness: logging in as user123 with the stored password succeeds and
the issued token resolves back to user id 1. -/
theorem C10_login_user_witness :
    (AuthService.login_user
        ⟨InMemoryUsers.add_user InMemoryUsers.new 1 "user123".toList "ABc123456@".toList,
         [], ⟨[], []⟩⟩ "user123".toList "ABc123456@".toList ⟨"tok".toList⟩).1
      = .ok 1 ⟨"tok".toList⟩ ∧
    AuthService.get_authorized_user_id
      (AuthService.login_user
        ⟨InMemoryUsers.add_user InMemoryUsers.new 1 "user123".toList "ABc123456@".toList,
         [], ⟨[], []⟩⟩ "user123".toList "ABc123456@".toList ⟨"tok".toList⟩).2
      ⟨"tok".toList⟩ = some 1 := by
  have hwf : UsersWF
      (InMemoryUsers.add_user InMemoryUsers.new 1 "user123".toList "ABc123456@".toList) := by
    intro uname uid h
    simp only [InMemoryUsers.add_user, InMemoryUsers.new, alistInsert, alistLookup] at h
    split at h
    · cases h
      decide
    · exact absurd h (by simp)
  obtain ⟨h1, h2, h3⟩ :=
    (C10_login_user
      ⟨InMemoryUsers.add_user InMemoryUsers.new 1 "user123".toList "ABc123456@".toList,
       [], ⟨[], []⟩⟩ "user123".toList "ABc123456@".toList ⟨"tok".toList⟩ hwf).2.2 1
      (by decide) (by decide)
  exact ⟨h1, h2⟩

end Kanban

namespace Kanban

theorem boardCategoryExt (c1 c2 : BoardCategory)
    (h1 : c1.category_id = c2.category_id) (h2 : c1.label = c2.label)
    (h3 : c1.ordered_tasks = c2.ordered_tasks) : c1 = c2 := by
  cases c1
  cases c2
  simp_all

theorem idxOf_lt_length [DecidableEq α] (k : α) :
    ∀ (l : List α), k ∈ l → idxOf k l < l.length := by
  intro l
  induction l with
  | nil => intro h; simp at h
  | cons a as ih =>
    intro h
    simp only [idxOf]
    split
    · simp
    · next hne =>
      have : k ∈ as := by
        rcases List.mem_cons.mp h with h1 | h1
        · exact absurd h1.symm hne
        · exact h1
      simpa using ih this

theorem get?_idxOf [DecidableEq α] (k : α) :
    ∀ (l : List α), k ∈ l → l.get? (idxOf k l) = some k := by
  intro l
  induction l with
  | nil => intro h; simp at h
  | cons a as ih =>
    intro h
    rcases eq_or_ne a k with he | hne
    · simp [idxOf, he]
    · have hm : k ∈ as := by
        rcases List.mem_cons.mp h with h1 | h1
        · exact absurd h1.symm hne
        · exact h1
      simp only [idxOf, if_neg hne, List.get?_cons_succ]
      exact ih hm

theorem idxOf_eq_of_get? [DecidableEq α] (k : α) :
    ∀ (l : List α), l.Nodup → ∀ (i : Nat), l.get? i = some k → idxOf k l = i := by
  intro l
  induction l with
  | nil => intro _ i h; simp at h
  | cons a as ih =>
    intro hnd i hget
    cases i with
    | zero =>
      simp only [List.get?_cons_zero, Option.some.injEq] at hget
      simp [idxOf, hget]
    | succ i =>
      simp only [List.get?_cons_succ] at hget
      have hne : a ≠ k := by
        intro he
        subst he
        exact (List.nodup_cons.mp hnd).1 (List.get?_mem hget)
      simp only [idxOf, if_neg hne]
      exact congrArg (· + 1) (ih (List.nodup_cons.mp hnd).2 i hget)

theorem alistLookup_none_append [DecidableEq α] (m m2 : List (α × β)) (k : α)
    (h : alistLookup m k = none) : alistLookup (m ++ m2) k = alistLookup m2 k := by
  induction m with
  | nil => simp
  | cons p rest ih =>
    obtain ⟨k0, v0⟩ := p
    simp only [alistLookup] at h
    split at h
    · exact absurd h (by simp)
    · next hne =>
      simp only [List.cons_append, alistLookup, if_neg hne]
      exact ih h

theorem alistInsert_of_none [DecidableEq α] (m : List (α × β)) (k : α) (v : β)
    (h : alistLookup m k = none) : alistInsert m k v = m ++ [(k, v)] := by
  induction m with
  | nil => simp [alistInsert]
  | cons p rest ih =>
    obtain ⟨k0, v0⟩ := p
    simp only [alistLookup] at h
    split at h
    · exact absurd h (by simp)
    · next hne =>
      simp only [alistInsert, if_neg hne, List.cons_append, List.cons.injEq, true_and]
      exact ih h

theorem hashFromIter_of_nodup [DecidableEq α] :
    ∀ (ps m : List (α × β)), (∀ p ∈ ps, alistLookup m p.1 = none) →
      (ps.map Prod.fst).Nodup →
      ps.foldl (fun m2 p => alistInsert m2 p.1 p.2) m = m ++ ps := by
  intro ps
  induction ps with
  | nil => intro m _ _; simp
  | cons p rest ih =>
    intro m hdisj hnd
    obtain ⟨k, v⟩ := p
    have hnd2 : k ∉ rest.map Prod.fst ∧ (rest.map Prod.fst).Nodup := by
      simpa using hnd
    simp only [List.foldl_cons]
    have hk : alistLookup m k = none := hdisj (k, v) (List.mem_cons_self _ _)
    rw [alistInsert_of_none m k v hk]
    rw [ih (m ++ [(k, v)]) ?_ hnd2.2]
    · simp
    · intro q hq
      rw [alistLookup_none_append m [(k, v)] q.1 (hdisj q (List.mem_cons_of_mem _ hq))]
      have hqk : q.1 ≠ k := fun he => hnd2.1 (he ▸ List.mem_map_of_mem Prod.fst hq)
      simp only [alistLookup]
      rw [if_neg (fun he => hqk he.symm)]

theorem hashFromIter_nodup [DecidableEq α] (ps : List (α × β))
    (hnd : (ps.map Prod.fst).Nodup) : hashFromIter ps = ps := by
  have := hashFromIter_of_nodup ps [] (by simp [alistLookup]) hnd
  simpa [hashFromIter] using this

end Kanban

namespace Kanban

theorem catIndexPairs_cons (n : Nat) (a : Str) (as : List Str) :
    catIndexPairs n (a :: as) = (a, n) :: catIndexPairs (n + 1) as := rfl

theorem catIndexPairs_lookup :
    ∀ (ids : List Str) (n : Nat) (k : Str),
      alistLookup (catIndexPairs n ids) k
        = if k ∈ ids then some (n + idxOf k ids) else none := by
  intro ids
  induction ids with
  | nil => intro n k; simp [catIndexPairs, alistLookup]
  | cons a as ih =>
    intro n k
    rw [catIndexPairs_cons]
    simp only [alistLookup]
    rcases eq_or_ne a k with he | hne
    · simp [he, idxOf]
    · rw [if_neg hne, ih (n + 1) k]
      have hm : k ∈ a :: as ↔ k ∈ as := by
        constructor
        · intro h
          rcases List.mem_cons.mp h with h1 | h1
          · exact absurd h1.symm hne
          · exact h1
        · exact List.mem_cons_of_mem _
      by_cases hk : k ∈ as
      · rw [if_pos hk, if_pos (hm.mpr hk)]
        have harith : n + 1 + idxOf k as = n + idxOf k (a :: as) := by
          simp only [idxOf, if_neg hne]
          omega
        rw [harith]
      · rw [if_neg hk, if_neg (fun hh => hk (hm.mp hh))]

theorem make_board_indices :
    ∀ (cats : List TaskCategoryDescription) (n : Nat),
      ((cats.map (fun ct => (⟨ct.category_id, ct.label, []⟩ : BoardCategory))).enumFrom n).map
          (fun p => (p.2.category_id, p.1))
        = catIndexPairs n (cats.map (fun c => c.category_id)) := by
  intro cats
  induction cats with
  | nil => intro n; rfl
  | cons c cs ih =>
    intro n
    simp only [List.map_cons, List.enumFrom, catIndexPairs_cons, List.map]
    exact congrArg _ (ih (n + 1))

theorem modifyIdx_get? (f : α → α) :
    ∀ (l : List α) (i j : Nat),
      (modifyIdx f l i).get? j = if j = i then (l.get? j).map f else l.get? j := by
  intro l
  induction l with
  | nil => intro i j; simp [modifyIdx]
  | cons a as ih =>
    intro i j
    cases i with
    | zero =>
      cases j with
      | zero => simp [modifyIdx]
      | succ j => simp [modifyIdx]
    | succ i =>
      cases j with
      | zero => simp [modifyIdx]
      | succ j =>
        simp only [modifyIdx, List.get?_cons_succ, ih]
        by_cases h : j = i
        · simp [h]
        · rw [if_neg h, if_neg (by omega)]

theorem boardInsertTasks_ok (indices : List (Str × Nat)) :
    ∀ (ts : List TaskDescription) (acc : List BoardCategory),
      (∀ t ∈ ts, (alistLookup indices t.category_id).isSome = true) →
      ∃ res, boardInsertTasks indices acc ts = .ok res ∧
        ∀ j, res.get? j = (acc.get? j).map (fun c =>
          ⟨c.category_id, c.label, c.ordered_tasks ++
            ((ts.filter (fun t => alistLookup indices t.category_id == some j)).map
              toBoardTask)⟩) := by
  intro ts
  induction ts with
  | nil =>
    intro acc _
    refine ⟨acc, rfl, fun j => ?_⟩
    cases h : acc.get? j with
    | none => rfl
    | some c => simp
  | cons t rest ih =>
    intro acc hall
    have hsome := hall t (List.mem_cons_self _ _)
    obtain ⟨i, hi⟩ := Option.isSome_iff_exists.mp hsome
    obtain ⟨res, hres, hget⟩ := ih
      (modifyIdx (fun c =>
        { c with ordered_tasks :=
            c.ordered_tasks ++ [⟨t.task_id, t.label, t.description⟩] }) acc i)
      (fun t2 ht2 => hall t2 (List.mem_cons_of_mem _ ht2))
    refine ⟨res, ?_, fun j => ?_⟩
    · simp only [boardInsertTasks, hi]
      exact hres
    · rw [hget j, modifyIdx_get? _ acc i j]
      rcases eq_or_ne j i with he | hne
      · rw [if_pos he]
        have hpred : (alistLookup indices t.category_id == some j) = true := by
          simp [hi, he]
        cases hc : acc.get? j with
        | none => simp
        | some c =>
          simp only [Option.map_some, Option.map_map, List.filter_cons, hpred]
          simp [toBoardTask, Function.comp, List.append_assoc]
      · rw [if_neg hne]
        have hpred : (alistLookup indices t.category_id == some j) = false := by
          simp only [hi, beq_eq_false_iff_ne, ne_eq, Option.some.injEq]
          exact fun hh => hne hh.symm
        cases hc : acc.get? j with
        | none => rfl
        | some c => simp [List.filter_cons, hpred]

theorem boardInsertTasks_error (indices : List (Str × Nat)) :
    ∀ (ts : List TaskDescription) (acc : List BoardCategory),
      (∃ t ∈ ts, alistLookup indices t.category_id = none) →
      ∃ e, boardInsertTasks indices acc ts = .error e := by
  intro ts
  induction ts with
  | nil =>
    intro acc h
    simp at h
  | cons t rest ih =>
    intro acc h
    cases hi : alistLookup indices t.category_id with
    | none =>
      simp only [boardInsertTasks, hi]
      exact ⟨_, rfl⟩
    | some i =>
      obtain ⟨t0, ht0, hnone⟩ := h
      have ht0r : t0 ∈ rest := by
        rcases List.mem_cons.mp ht0 with h1 | h1
        · rw [h1] at hnone
          rw [hnone] at hi
          exact absurd hi (by simp)
        · exact h1
      obtain ⟨e, he⟩ := ih
        (modifyIdx (fun c =>
          { c with ordered_tasks :=
              c.ordered_tasks ++ [⟨t.task_id, t.label, t.description⟩] }) acc i)
        ⟨t0, ht0r, hnone⟩
      refine ⟨e, ?_⟩
      simp only [boardInsertTasks, hi]
      exact he

end Kanban

namespace Kanban

theorem catIndexPairs_keys :
    ∀ (ids : List Str) (n : Nat), (catIndexPairs n ids).map Prod.fst = ids := by
  intro ids
  induction ids with
  | nil => intro n; rfl
  | cons a as ih =>
    intro n
    rw [catIndexPairs_cons]
    simp only [List.map_cons]
    rw [ih (n + 1)]

/-- C5 amended: when the category ids are pairwise distinct (as fetched
categories are), make_tasks_board succeeds exactly when every task references
a present category, returning one board category per input category in the
same order, each carrying exactly the tasks whose category_id equals its id
in task order; when some task references an absent category id the whole
assembly fails with an error rather than dropping the task. -/
theorem C5_make_tasks_board :
    ∀ (tasks : List TaskDescription) (categories : List TaskCategoryDescription),
      (categories.map (fun c => c.category_id)).Nodup →
      ((∀ t ∈ tasks, ∃ c ∈ categories, c.category_id = t.category_id) →
        make_tasks_board tasks categories = .ok (specTasksBoard tasks categories)) ∧
      ((∃ t ∈ tasks, ∀ c ∈ categories, c.category_id ≠ t.category_id) →
        ∃ e, make_tasks_board tasks categories = .error e) := by
  intro tasks categories hnd
  have hindices :
      hashFromIter
        (((categories.map (fun ct => (⟨ct.category_id, ct.label, []⟩ : BoardCategory))).enum).map
          (fun p => (p.2.category_id, p.1)))
      = catIndexPairs 0 (categories.map (fun c => c.category_id)) := by
    rw [show ((categories.map (fun ct => (⟨ct.category_id, ct.label, []⟩ : BoardCategory))).enum)
        = ((categories.map (fun ct => (⟨ct.category_id, ct.label, []⟩ : BoardCategory))).enumFrom 0)
        from rfl]
    rw [make_board_indices categories 0]
    exact hashFromIter_nodup _ (by rw [catIndexPairs_keys]; exact hnd)
  have hlook : ∀ k,
      alistLookup (catIndexPairs 0 (categories.map (fun c => c.category_id))) k
        = if k ∈ categories.map (fun c => c.category_id)
            then some (idxOf k (categories.map (fun c => c.category_id))) else none := by
    intro k
    rw [catIndexPairs_lookup _ 0 k]
    simp
  constructor
  · intro hall
    have hsome : ∀ t ∈ tasks,
        (alistLookup (catIndexPairs 0 (categories.map (fun c => c.category_id)))
          t.category_id).isSome = true := by
      intro t ht
      obtain ⟨c, hc, hcid⟩ := hall t ht
      have hmem : t.category_id ∈ categories.map (fun c => c.category_id) :=
        hcid ▸ List.mem_map_of_mem _ hc
      rw [hlook, if_pos hmem]
      rfl
    obtain ⟨res, hres, hget⟩ := boardInsertTasks_ok _ tasks
      (categories.map (fun ct => (⟨ct.category_id, ct.label, []⟩ : BoardCategory))) hsome
    have hmb : make_tasks_board tasks categories = .ok ⟨res⟩ := by
      simp only [make_tasks_board]
      rw [hindices, hres]
      rfl
    rw [hmb]
    have hlist : res = categories.map (fun c =>
        (⟨c.category_id, c.label,
          (tasks.filter (fun t => t.category_id == c.category_id)).map
            toBoardTask⟩ : BoardCategory)) := by
      apply List.ext
      intro j
      rw [hget j, List.get?_map, List.get?_map]
      cases hc : categories.get? j with
      | none => rfl
      | some c =>
        simp only [Option.map_some']
        have hfc : tasks.filter (fun t =>
              alistLookup (catIndexPairs 0 (categories.map (fun c => c.category_id)))
                t.category_id == some j)
            = tasks.filter (fun t => t.category_id == c.category_id) := by
          apply List.filter_congr
          intro t ht
          obtain ⟨c2, hc2, hcid2⟩ := hall t ht
          have hmem : t.category_id ∈ categories.map (fun c => c.category_id) :=
            hcid2 ▸ List.mem_map_of_mem _ hc2
          rw [hlook, if_pos hmem]
          rw [Bool.eq_iff_iff]
          simp only [beq_iff_eq, Option.some.injEq]
          have hidj : (categories.map (fun c => c.category_id)).get? j
              = some c.category_id := by
            rw [List.get?_map, hc]
            rfl
          constructor
          · intro hij
            have hgi := get?_idxOf t.category_id _ hmem
            rw [hij, hidj] at hgi
            exact (Option.some.injEq _ _ ▸ hgi).symm
          · intro hcc
            exact idxOf_eq_of_get? t.category_id _ hnd j (by rw [hidj, hcc])
        simp only [List.nil_append, hfc]
    rw [hlist]
    rfl
  · rintro ⟨t, ht, hmiss⟩
    have hnone :
        alistLookup (catIndexPairs 0 (categories.map (fun c => c.category_id)))
          t.category_id = none := by
      rw [hlook, if_neg]
      intro hmem
      obtain ⟨c, hc, hcid⟩ := List.mem_map.mp hmem
      exact hmiss c hc hcid
    obtain ⟨e, he⟩ := boardInsertTasks_error _ tasks
      (categories.map (fun ct => (⟨ct.category_id, ct.label, []⟩ : BoardCategory)))
      ⟨t, ht, hnone⟩
    refine ⟨e, ?_⟩
    simp only [make_tasks_board]
    rw [hindices, he]
    rfl

end Kanban

namespace Kanban

/-- C5 counterexample: with two categories sharing the id c1, the task
assigned to c1 lands only in the last copy, so the first board category does
not carry the tasks whose category_id equals its id, refuting the claim as
stated when duplicate category ids occur. -/
theorem C5_duplicate_category_counterexample :
    (∀ t ∈ [(⟨"t1".toList, "l".toList, "d".toList, "c1".toList⟩ : TaskDescription)],
      ∃ c ∈ [(⟨"c1".toList, "A".toList⟩ : TaskCategoryDescription),
             ⟨"c1".toList, "B".toList⟩],
        c.category_id = t.category_id) ∧
    make_tasks_board [⟨"t1".toList, "l".toList, "d".toList, "c1".toList⟩]
        [⟨"c1".toList, "A".toList⟩, ⟨"c1".toList, "B".toList⟩]
      = .ok ⟨[⟨"c1".toList, "A".toList, []⟩,
              ⟨"c1".toList, "B".toList, [⟨"t1".toList, "l".toList, "d".toList⟩]⟩]⟩ ∧
    ([(⟨"t1".toList, "l".toList, "d".toList, "c1".toList⟩ : TaskDescription)].filter
        (fun t => t.category_id == "c1".toList)).map toBoardTask ≠ [] := by
  exact ⟨by decide, rfl, by decide⟩

/-- C5 witness: the spec's board-assembly examples, obtained by applying the
theorem at the concrete inputs. -/
theorem C5_make_tasks_board_witness :
    make_tasks_board [⟨"t1".toList, "l".toList, "d".toList, "c1".toList⟩]
        [⟨"c1".toList, "ToDo".toList⟩]
      = .ok (specTasksBoard [⟨"t1".toList, "l".toList, "d".toList, "c1".toList⟩]
          [⟨"c1".toList, "ToDo".toList⟩]) ∧
    (∃ e, make_tasks_board [⟨"t1".toList, "l".toList, "d".toList, "missing".toList⟩]
        [⟨"c1".toList, "ToDo".toList⟩] = .error e) :=
  ⟨(C5_make_tasks_board [⟨"t1".toList, "l".toList, "d".toList, "c1".toList⟩]
      [⟨"c1".toList, "ToDo".toList⟩] (by decide)).1 (by decide),
   (C5_make_tasks_board [⟨"t1".toList, "l".toList, "d".toList, "missing".toList⟩]
      [⟨"c1".toList, "ToDo".toList⟩] (by decide)).2 (by decide)⟩

end Kanban

namespace Kanban

/-- C2 witness: the in-memory classification conjunct applied at an empty
store. -/
theorem C2_delete_task_classification_witness :
    (InMemoryTasks.delete_task ⟨[], []⟩ 2 "t2".toList).1 = .ok () :=
  (C2_delete_task_classification [] ⟨[], []⟩ 2 "t2".toList).2

/-- C3 witness: a 32-byte string parses successfully. -/
theorem C3_from_str_iff_witness :
    (SessionToken.from_str (List.replicate 32 'f')).isSome = true :=
  (C3_from_str_iff (List.replicate 32 'f')).mpr (by decide)

/-- C7 witness: a concrete valid password accepted via the equivalence. -/
theorem C7_validate_password_iff_witness :
    validate_password latinClass "aB3@aB3@".toList = true :=
  (C7_validate_password_iff.1 latinClass "aB3@aB3@".toList).mpr (by decide)

/-- C8 witness: a concrete valid username accepted via the equivalence. -/
theorem C8_validate_username_iff_witness :
    validate_username latinClass "name_9".toList = true :=
  (C8_validate_username_iff.1 latinClass "name_9".toList).mpr (by decide)

end Kanban
